import Mathlib

/-
Verification of the remote object-access core of `blobfile` (ops.py).

Shallow embedding conventions:
* Python `range(a, b)` becomes `Finset.Ico a b`.
* Python floats in the backoff generator become rationals: the generator only
  doubles its value (exact in binary floating point) and compares against the
  integer 60, so ordering and equality agree with the float semantics.
* HTTP is modelled by an environment: a list of attempt outcomes (an I/O error
  from the transport layer, or a response status code) consumed one per attempt.
* Assertions (`assert` in Python) are modelled with `Except`, an `AssertionFail`
  style error constructor standing for the raised `AssertionError`.
-/

/-! ## Character sets (ops.py lines 63-67) -/

/-- Embeds `INVALID_CHARS` from ops.py:
`set().union(range(0x0, 0x9)).union(range(0xB, 0xE)).union(range(0xE, 0x20))`. -/
def INVALID_CHARS : Finset ℕ :=
  (Finset.Ico 0x0 0x9 ∪ Finset.Ico 0xB 0xE) ∪ Finset.Ico 0xE 0x20

/-- The invalid-character set as the specification describes it:
code points 0x00-0x08, 0x0B, 0x0C, 0x0E-0x1F. -/
def specInvalidChars : Finset ℕ :=
  (Finset.Ico 0x0 0x9 ∪ {0xB, 0xC}) ∪ Finset.Ico 0xE 0x20

/-- Embeds the shard alphabet built in `listdir` (ops.py lines 843-845):
`[i for i in range(256) if i not in INVALID_CHARS and i != ord("/")]`. -/
def valid_chars : List ℕ :=
  (List.range 256).filter (fun i => i ∉ INVALID_CHARS && i ≠ 47)

/-! ## Exponential backoff and the HTTP executor (ops.py lines 309-379) -/

/-- Embeds `_exponential_sleep_generator(0.1, maximum=60.0)` (ops.py lines
309-318): `sleepVal n` is the n-th value yielded by the generator, i.e. the
delay slept after the n-th attempt (0-indexed) fails.  The generator yields
`value`, then doubles it and clamps the result to the maximum. -/
def sleepVal : ℕ → ℚ
  | 0 => 1 / 10
  | n + 1 => if sleepVal n * 2 > 60 then 60 else sleepVal n * 2

/-- Embeds the default `retry_statuses=(429, 500, 502, 503, 504)` argument of
`_execute_request` (ops.py line 343). -/
def retry_statuses : List ℕ := [429, 500, 502, 503, 504]

/-- Outcome of a single HTTP attempt, as seen by `_execute_request`: either the
transport layer raised one of `ConnectTimeoutError`, `ReadTimeoutError`,
`ProtocolError`, or a response with a status code came back. -/
inductive Outcome where
  | ioError : Outcome
  | status : ℕ → Outcome
deriving DecidableEq, Repr

/-- Embeds the retry classification of one loop iteration of `_execute_request`
(ops.py lines 352-373): an attempt is a transient failure (so is retried) when
the transport raised an I/O error or the status is in `retry_statuses`;
otherwise the response is returned to the caller. -/
def retriesAttempt : Outcome → Bool
  | .ioError => true
  | .status s => retry_statuses.contains s

/-- Embeds the loop of `_execute_request` (ops.py lines 345-379) against an
environment listing the outcome of each successive attempt.  `n` is the current
value of `attempt` from `enumerate`.  Returns the status returned to the caller
together with the list of delays slept before each retry, or `none` when the
environment has no further outcomes (the real loop would simply keep going).  -/
def executeGo : ℕ → List Outcome → Option (ℕ × List ℚ)
  | _, [] => none
  | n, o :: rest =>
    match o with
    | .status s =>
      if retry_statuses.contains s then
        (executeGo (n + 1) rest).map (fun r => (r.1, sleepVal n :: r.2))
      else
        some (s, [])
    | .ioError =>
      (executeGo (n + 1) rest).map (fun r => (r.1, sleepVal n :: r.2))

/-- Embeds `_execute_request` itself: attempts start at `attempt = 0`. -/
def execute_request (outcomes : List Outcome) : Option (ℕ × List ℚ) :=
  executeGo 0 outcomes

theorem sleepVal_closed_form (n : ℕ) : sleepVal n = min (1 / 10 * 2 ^ n) 60 := by
  induction n with
  | zero =>
    simp [sleepVal]
    norm_num
  | succ n ih =>
    rw [sleepVal, ih]
    rcases le_or_lt (1 / 10 * 2 ^ n : ℚ) 60 with h | h
    · rw [min_eq_left h]
      rcases le_or_lt (1 / 10 * 2 ^ n * 2 : ℚ) 60 with h2 | h2
      · rw [if_neg (not_lt.mpr h2), pow_succ]
        rw [min_eq_left]
        · ring
        · linarith [h2]
      · rw [if_pos h2]
        rw [min_eq_right]
        rw [pow_succ]
        nlinarith [h2]
    · rw [min_eq_right (le_of_lt h)]
      have h2 : (60 : ℚ) * 2 > 60 := by norm_num
      rw [if_pos h2]
      rw [min_eq_right]
      have : (1 / 10 * 2 ^ n : ℚ) ≤ 1 / 10 * 2 ^ (n + 1) := by
        rw [pow_succ]
        nlinarith [pow_pos (show (0:ℚ) < 2 by norm_num) n]
      linarith

theorem executeGo_first_good (m : ℕ) :
    ∀ (pre : List Outcome) (s : ℕ) (post : List Outcome),
      pre.length = m →
      (∀ o ∈ pre, retriesAttempt o = true) →
      retry_statuses.contains s = false →
      ∀ k, executeGo k (pre ++ .status s :: post) =
        some (s, (List.range m).map (fun i => sleepVal (k + i))) := by
  induction m with
  | zero =>
    intro pre s post hlen _ hs k
    have hpre : pre = [] := List.eq_nil_of_length_eq_zero hlen
    subst hpre
    have hs' : s ∉ retry_statuses := by simpa using hs
    simp [executeGo, hs']
  | succ n ih =>
    intro pre s post hlen hall hs k
    match pre with
    | [] => simp at hlen
    | o :: rest =>
      have hrest : rest.length = n := by simpa using hlen
      have ho : retriesAttempt o = true := hall o (by simp)
      have hrec := ih rest s post hrest (fun x hx => hall x (by simp [hx])) hs (k + 1)
      have hmap : (List.range (n + 1)).map (fun i => sleepVal (k + i)) =
          sleepVal k :: (List.range n).map (fun i => sleepVal (k + 1 + i)) := by
        rw [List.range_succ_eq_map, List.map_cons, List.map_map]
        refine congrArg₂ _ (by rw [Nat.add_zero]) (List.map_congr_left ?_)
        intro i _
        exact congrArg sleepVal (by omega)
      cases o with
      | ioError =>
        simp only [List.cons_append, executeGo, List.append_eq, hrec, Option.map_some']
        rw [hmap]
      | status t =>
        have ht : retry_statuses.contains t = true := by
          simpa [retriesAttempt] using ho
        simp only [List.cons_append, executeGo, List.append_eq, ht, if_true, hrec,
          Option.map_some']
        rw [hmap]

/-- C7: the HTTP executor retries an attempt exactly when the transport layer
raises an I/O error or the response status lies in {429, 500, 502, 503, 504};
the delay slept before attempt n+1 is min(0.1 * 2^n, 60) seconds; and when the
first non-retryable status arrives the response is returned to the caller with
no further retries, having slept exactly the scheduled delays. -/
theorem execute_request_retry_policy :
    (∀ s : ℕ, retriesAttempt (.status s) = true ↔
      s = 429 ∨ s = 500 ∨ s = 502 ∨ s = 503 ∨ s = 504) ∧
    (retriesAttempt .ioError = true) ∧
    (∀ n : ℕ, sleepVal n = min (1 / 10 * 2 ^ n) 60) ∧
    (∀ (pre : List Outcome) (s : ℕ) (post : List Outcome),
      (∀ o ∈ pre, retriesAttempt o = true) →
      retry_statuses.contains s = false →
      execute_request (pre ++ .status s :: post) =
        some (s, (List.range pre.length).map sleepVal)) := by
  refine ⟨?_, rfl, sleepVal_closed_form, ?_⟩
  · intro s
    simp [retriesAttempt, retry_statuses]
  · intro pre s post hall hs
    have := executeGo_first_good pre.length pre s post rfl hall hs 0
    simpa using this

/-- Witness for `execute_request_retry_policy`: a concrete run with two
transient failures (a 503 and an I/O error) followed by a 404, which is
returned unretried after delays 0.1 and 0.2 seconds. -/
theorem execute_request_retry_policy_witness :
    execute_request [.status 503, .ioError, .status 404] =
      some (404, [1 / 10, 2 / 10]) := by
  have h := execute_request_retry_policy.2.2.2 [.status 503, .ioError]
    404 [] (by decide) (by decide)
  simp only [List.cons_append, List.nil_append, List.length_cons, List.length_nil] at h
  rw [h]
  norm_num [sleepVal, List.range_succ]

/-- C5 (code bug): the code's `INVALID_CHARS` contains 0x0D (carriage return),
while the invalid set described by the specification (which matches the XML
character set the code cites) does not: `INVALID_CHARS` is exactly the spec
set plus 0x0D, and consequently 0x0D is excluded from the shard alphabet
`valid_chars` built in `listdir`. -/
theorem invalid_chars_contain_carriage_return :
    0x0D ∈ INVALID_CHARS ∧ 0x0D ∉ specInvalidChars ∧
    INVALID_CHARS = insert 0x0D specInvalidChars ∧
    0x0D ∉ valid_chars ∧ 0x0A ∈ valid_chars := by
  refine ⟨by decide, by decide, by decide, by decide, by decide⟩

/-! ## Token manager (ops.py lines 46, 139-162) -/

/-- Embeds `EARLY_EXPIRATION_SECONDS = 5 * 60` (ops.py line 46). -/
def EARLY_EXPIRATION_SECONDS : ℚ := 5 * 60

/-- State of a `TokenManager` (ops.py lines 139-148): the token cache is a
per-key map (`self._tokens`), but the recorded expiration (`self._expiration`)
is a single manager-wide value, not per key.  Token values are abstracted as
naturals. -/
structure TokenManager where
  tokens : List (String × ℕ)
  expiration : Option ℚ
deriving Repr, DecidableEq

/-- Result of one `get_token` call: the returned token, the manager state
afterwards, and whether the loader `self._get_token_fn` was invoked. -/
structure GetTokenResult where
  token : ℕ
  manager : TokenManager
  fetched : Bool
deriving Repr, DecidableEq

/-- Embeds `TokenManager.get_token` (ops.py lines 150-162): if the manager-wide
expiration is unset or `now + EARLY_EXPIRATION_SECONDS` exceeds it, the entry
for `key` (and only that entry) is deleted; then if `key` is absent the loader
is invoked and its expiration overwrites the manager-wide one. -/
def get_token (fn : String → ℕ × ℚ) (m : TokenManager) (now : ℚ)
    (key : String) : GetTokenResult :=
  let tokens1 :=
    match m.expiration with
    | none => m.tokens.filter (fun kv => !(kv.1 == key))
    | some e =>
      if now + EARLY_EXPIRATION_SECONDS > e then
        m.tokens.filter (fun kv => !(kv.1 == key))
      else m.tokens
  match tokens1.lookup key with
  | some v =>
    { token := v, manager := { tokens := tokens1, expiration := m.expiration },
      fetched := false }
  | none =>
    { token := (fn key).1,
      manager := { tokens := (key, (fn key).1) :: tokens1,
                   expiration := some (fn key).2 },
      fetched := true }

theorem lookup_filter_ne_key (l : List (String × ℕ)) (key : String) :
    (l.filter (fun kv => !(kv.1 == key))).lookup key = none := by
  induction l with
  | nil => rfl
  | cons kv rest ih =>
    obtain ⟨k1, v1⟩ := kv
    by_cases h : k1 = key
    · simpa [List.filter_cons, h] using ih
    · have hk : (key == k1) = false := by
        simp only [beq_eq_false_iff_ne, ne_eq]
        exact fun he => h he.symm
      simp [List.filter_cons, h, List.lookup, hk, ih]

/-- A concrete loader for the C2 counterexample: key "a" yields token 1
expiring at epoch 400, any other key yields token 2 expiring at epoch
1000000000. -/
def cexLoader : String → ℕ × ℚ :=
  fun k => if k = "a" then (1, 400) else (2, 1000000000)

/-- C2 counterexample: fetch a token for key "a" (expiring at 400), then one
for key "b" (expiring at 1000000000, which overwrites the shared expiration),
then ask for "a" again at time 500.  Although `500 + 300 > 400`, the stale
token for "a" is served from cache: the loader is not re-invoked and the slot
is not cleared, contradicting the per-key reading of the claim. -/
theorem get_token_per_key_expiration_counterexample :
    (cexLoader "a").2 = 400 ∧ (500 : ℚ) + EARLY_EXPIRATION_SECONDS > 400 ∧
    (get_token cexLoader
      (get_token cexLoader
        (get_token cexLoader ⟨[], none⟩ 0 "a").manager 0 "b").manager
      500 "a") =
    { token := 1,
      manager := { tokens := [("b", 2), ("a", 1)],
                   expiration := some 1000000000 },
      fetched := false } := by
  refine ⟨by norm_num [cexLoader], by norm_num [EARLY_EXPIRATION_SECONDS], ?_⟩
  have s1 : get_token cexLoader ⟨[], none⟩ 0 "a" =
      ⟨1, ⟨[("a", 1)], some 400⟩, true⟩ := rfl
  have s2 : get_token cexLoader ⟨[("a", 1)], some 400⟩ 0 "b" =
      ⟨2, ⟨[("b", 2), ("a", 1)], some 1000000000⟩, true⟩ := by
    have hc1 : ¬((0:ℚ) + EARLY_EXPIRATION_SECONDS > 400) := by
      norm_num [EARLY_EXPIRATION_SECONDS]
    simp only [get_token, if_neg hc1]
    rfl
  have hc2 : ¬((500:ℚ) + EARLY_EXPIRATION_SECONDS > 1000000000) := by
    norm_num [EARLY_EXPIRATION_SECONDS]
  rw [s1, s2]
  simp only [get_token, if_neg hc2]
  rfl

/-- C2 (amended): the expiration is manager-wide, not per key.  `get_token`
serves a cached token for `key` only while `now + 300 ≤` the expiration
recorded by the most recent load (for any key); otherwise `key`'s slot (and
only that slot) is cleared and the loader is re-invoked, its reported
expiration replacing the shared one. -/
theorem get_token_amended (fn : String → ℕ × ℚ) (m : TokenManager) (now : ℚ)
    (key : String) :
    ((m.expiration = none ∨
        ∃ e, m.expiration = some e ∧ now + EARLY_EXPIRATION_SECONDS > e) →
      get_token fn m now key =
        { token := (fn key).1,
          manager := { tokens :=
                         (key, (fn key).1) ::
                           m.tokens.filter (fun kv => !(kv.1 == key)),
                       expiration := some (fn key).2 },
          fetched := true }) ∧
    (∀ e v, m.expiration = some e → now + EARLY_EXPIRATION_SECONDS ≤ e →
      m.tokens.lookup key = some v →
      get_token fn m now key = { token := v, manager := m, fetched := false }) := by
  constructor
  · intro h
    obtain ⟨toks, exp⟩ := m
    rcases h with h | ⟨e, he, hlt⟩
    · simp only at h
      subst h
      simp [get_token, lookup_filter_ne_key]
    · simp only at he
      subst he
      simp [get_token, if_pos hlt, lookup_filter_ne_key]
  · intro e v he hle hv
    obtain ⟨toks, exp⟩ := m
    simp only at he hv
    subst he
    simp [get_token, if_neg (not_lt.mpr hle), hv]

/-- Witness for `get_token_amended`: instantiated at the loader `cexLoader`, an
empty manager (stale branch: the loader runs) and at a fresh manager holding a
cached token for "a" (cache branch: the cached value is returned). -/
theorem get_token_amended_witness :
    get_token cexLoader ⟨[], none⟩ 0 "a" =
      { token := 1, manager := { tokens := [("a", 1)], expiration := some 400 },
        fetched := true } ∧
    get_token cexLoader ⟨[("a", 7)], some 1000⟩ 0 "a" =
      { token := 7, manager := ⟨[("a", 7)], some 1000⟩, fetched := false } := by
  constructor
  · have h := (get_token_amended cexLoader ⟨[], none⟩ 0 "a").1 (Or.inl rfl)
    rw [h]
    decide
  · have h := (get_token_amended cexLoader ⟨[("a", 7)], some 1000⟩ 0 "a").2
      1000 7 rfl (by norm_num [EARLY_EXPIRATION_SECONDS]) (by decide)
    exact h

/-! ## Streaming writer buffer management (ops.py lines 1495-1536) -/

/-- State of a `_StreamingWriteFile` (ops.py lines 1495-1501): the current
writing byte offset, the pending buffer, and the configured chunk size.
Buffer contents are byte lists. -/
structure WState where
  chunk_size : ℕ
  offset : ℕ
  buf : List ℕ
deriving Repr, DecidableEq

/-- Embeds `_StreamingWriteFile.__init__(chunk_size)` (ops.py lines 1496-1501). -/
def initWriteState (cs : ℕ) : WState :=
  { chunk_size := cs, offset := 0, buf := [] }

/-- The state-changing events of `_upload_buf`, in the order the source
performs them: the buffer truncation `self._buf = self._buf[size:]`
(line 1513), the call `self._upload_chunk(chunk, finalize)` (line 1515), and
the offset advance `self._offset += len(chunk)` (line 1516). -/
inductive WEvent where
  | truncate (size : ℕ)
  | uploadChunk (chunk : List ℕ) (finalize : Bool)
  | advanceOffset (n : ℕ)
deriving Repr, DecidableEq

/-- Embeds `_StreamingWriteFile._upload_buf` (ops.py lines 1506-1516).
Returns the state after the call and the ordered list of state-changing
events, or `none` when the `assert size > 0` on line 1511 fails. -/
def upload_buf (s : WState) (finalize : Bool) : Option (WState × List WEvent) :=
  let size := if finalize then s.buf.length
              else s.buf.length / s.chunk_size * s.chunk_size
  if ¬finalize ∧ size = 0 then none
  else
    let chunk := s.buf.take size
    some ({ s with buf := s.buf.drop size, offset := s.offset + chunk.length },
          [.truncate size, .uploadChunk chunk finalize,
           .advanceOffset chunk.length])

theorem upload_buf_shrinks (s s' : WState) (evs : List WEvent)
    (h : upload_buf s false = some (s', evs)) :
    s'.buf.length < s.buf.length := by
  unfold upload_buf at h
  simp only [if_neg, Bool.false_eq_true, not_false_eq_true, true_and] at h
  by_cases hz : s.buf.length / s.chunk_size * s.chunk_size = 0
  · rw [if_pos hz] at h
    exact absurd h (by simp)
  · rw [if_neg hz] at h
    have hle : s.buf.length / s.chunk_size * s.chunk_size ≤ s.buf.length :=
      Nat.div_mul_le_self _ _
    have hpos : 0 < s.buf.length / s.chunk_size * s.chunk_size :=
      Nat.pos_of_ne_zero hz
    have hs' : s'.buf = s.buf.drop (s.buf.length / s.chunk_size * s.chunk_size) := by
      have := congrArg (fun r => (Prod.fst r).buf) (Option.some.inj h)
      simpa using this.symm
    rw [hs', List.length_drop]
    omega

/-- Embeds the `while len(self._buf) > self._chunk_size` loop of
`_StreamingWriteFile.write` (ops.py lines 1534-1535). -/
def writeLoopW (s : WState) : Option WState :=
  if s.buf.length > s.chunk_size then
    match hu : upload_buf s false with
    | none => none
    | some (s', _) => writeLoopW s'
  else some s
termination_by s.buf.length
decreasing_by exact upload_buf_shrinks s s' _ hu

/-- Embeds `_StreamingWriteFile.write` (ops.py lines 1532-1536): append `b` to
the pending buffer, then upload leading whole chunks while the buffer exceeds
the chunk size. -/
def writeW (s : WState) (b : List ℕ) : Option WState :=
  writeLoopW { s with buf := s.buf ++ b }

/-- Embeds `_StreamingWriteFile.close` (ops.py lines 1518-1524): flush the
remaining buffer with `finalize=True`. -/
def closeW (s : WState) : Option WState :=
  (upload_buf s true).map Prod.fst

theorem upload_buf_spec_true (s s' : WState) (evs : List WEvent)
    (h : upload_buf s true = some (s', evs)) :
    s' = { s with buf := [], offset := s.offset + s.buf.length } ∧
    evs = [.truncate s.buf.length, .uploadChunk s.buf true,
           .advanceOffset s.buf.length] := by
  simp [upload_buf] at h
  exact ⟨h.1.symm, h.2.symm⟩

theorem upload_buf_spec_false (s s' : WState) (evs : List WEvent)
    (h : upload_buf s false = some (s', evs)) :
    0 < s.buf.length / s.chunk_size * s.chunk_size ∧
    s' = { s with buf := s.buf.drop (s.buf.length / s.chunk_size * s.chunk_size),
                  offset := s.offset + s.buf.length / s.chunk_size * s.chunk_size } ∧
    evs = [.truncate (s.buf.length / s.chunk_size * s.chunk_size),
           .uploadChunk (s.buf.take (s.buf.length / s.chunk_size * s.chunk_size)) false,
           .advanceOffset (s.buf.length / s.chunk_size * s.chunk_size)] := by
  have hle : s.buf.length / s.chunk_size * s.chunk_size ≤ s.buf.length :=
    Nat.div_mul_le_self _ _
  by_cases hz : s.buf.length / s.chunk_size * s.chunk_size = 0
  · simp [upload_buf, hz] at h
  · simp [upload_buf, hz, Nat.min_eq_left hle] at h
    exact ⟨Nat.pos_of_ne_zero hz, h.1.symm, h.2.symm⟩

theorem writeLoopW_stop (s : WState) (h : ¬ s.buf.length > s.chunk_size) :
    writeLoopW s = some s := by
  rw [writeLoopW.eq_def]
  exact if_neg h

theorem writeLoopW_fail (s : WState) (h : s.buf.length > s.chunk_size)
    (hu : upload_buf s false = none) : writeLoopW s = none := by
  rw [writeLoopW.eq_def, if_pos h]
  split
  · rfl
  · next s1 evs heq => rw [hu] at heq; cases heq

theorem writeLoopW_step (s s1 : WState) (evs : List WEvent)
    (h : s.buf.length > s.chunk_size)
    (hu : upload_buf s false = some (s1, evs)) :
    writeLoopW s = writeLoopW s1 := by
  rw [writeLoopW.eq_def, if_pos h]
  split
  · next heq => rw [hu] at heq; cases heq
  · next s2 evs2 heq =>
      rw [hu] at heq
      cases heq
      rfl

theorem writeLoopW_preserves (n : ℕ) :
    ∀ s s' : WState, s.buf.length ≤ n → writeLoopW s = some s' →
      s'.offset + s'.buf.length = s.offset + s.buf.length ∧
      s'.chunk_size = s.chunk_size := by
  induction n with
  | zero =>
    intro s s' hle h
    rw [writeLoopW_stop s (by omega)] at h
    cases h
    exact ⟨rfl, rfl⟩
  | succ n ih =>
    intro s s' hle h
    by_cases hgt : s.buf.length > s.chunk_size
    · cases hu : upload_buf s false with
      | none => rw [writeLoopW_fail s hgt hu] at h; cases h
      | some r =>
        obtain ⟨s1, evs⟩ := r
        rw [writeLoopW_step s s1 evs hgt hu] at h
        obtain ⟨hpos, hs1, _⟩ := upload_buf_spec_false s s1 evs hu
        have hlen1 : s1.buf.length < s.buf.length := upload_buf_shrinks s s1 evs hu
        have hrec := ih s1 s' (by omega) h
        have hle2 : s.buf.length / s.chunk_size * s.chunk_size ≤ s.buf.length :=
          Nat.div_mul_le_self _ _
        have hsum : s1.offset + s1.buf.length = s.offset + s.buf.length := by
          rw [hs1]
          simp only [List.length_drop]
          generalize s.buf.length / s.chunk_size * s.chunk_size = size at hpos hle2
          omega
        have hcs : s1.chunk_size = s.chunk_size := by rw [hs1]
        exact ⟨by omega, by rw [hrec.2, hcs]⟩
    · rw [writeLoopW_stop s hgt] at h
      cases h
      exact ⟨rfl, rfl⟩

/-- Recognizes buffer-truncation events. -/
def isTruncateEv : WEvent → Bool
  | .truncate _ => true
  | _ => false

/-- Recognizes chunk-upload events. -/
def isUploadEv : WEvent → Bool
  | .uploadChunk _ _ => true
  | _ => false

/-- The ordering the claim asserts of the events of `_upload_buf`: every
truncation of the pending buffer happens only after a chunk upload, i.e. some
upload event strictly precedes it. -/
def TruncOnlyAfterUpload (evs : List WEvent) : Prop :=
  ∀ i : Fin evs.length, isTruncateEv (evs.get i) = true →
    ∃ j : Fin evs.length, isUploadEv (evs.get j) = true ∧ (j : ℕ) < (i : ℕ)

/-- C3 counterexample: for a writer with chunk size 2, offset 0 and pending
buffer [97, 98, 99], `_upload_buf` truncates `self._buf` (ops.py line 1513)
strictly before calling `_upload_chunk` (line 1515): in the emitted event list
the truncation precedes the upload, so the pending buffer is not truncated
"only after that successful upload" as the claim states. -/
theorem upload_buf_truncates_before_upload :
    upload_buf ⟨2, 0, [97, 98, 99]⟩ false =
      some (⟨2, 2, [99]⟩,
        [.truncate 2, .uploadChunk [97, 98] false, .advanceOffset 2]) ∧
    ¬ TruncOnlyAfterUpload
        [.truncate 2, .uploadChunk [97, 98] false, .advanceOffset 2] := by
  constructor
  · rfl
  · intro hc
    have := hc ⟨0, by norm_num⟩ (by rfl)
    obtain ⟨j, _, hj⟩ := this
    exact Nat.not_lt_zero _ hj

/-- C3 (amended): between operations, `offset + len(pending_buffer)` equals
the total bytes accepted from the caller: `write` grows the sum by exactly the
length of the bytes accepted and `close` moves the whole remaining buffer into
`offset`; the offset advances by exactly the length of each uploaded chunk and
only when `_upload_chunk` returns successfully, but the pending buffer is
truncated by that same length immediately *before* the upload call (with the
truncation, upload and offset advance of one `_upload_buf` call occurring in
that order). -/
theorem streaming_write_buffer_invariant :
    (∀ (s : WState) (b : List ℕ) (s' : WState), writeW s b = some s' →
      s'.offset + s'.buf.length = s.offset + s.buf.length + b.length) ∧
    (∀ s s' : WState, closeW s = some s' →
      s'.offset = s.offset + s.buf.length ∧ s'.buf = []) ∧
    (∀ (s : WState) (f : Bool) (s' : WState) (evs : List WEvent),
      upload_buf s f = some (s', evs) →
      ∃ size : ℕ, size ≤ s.buf.length ∧
        evs = [.truncate size, .uploadChunk (s.buf.take size) f,
               .advanceOffset size] ∧
        s'.offset = s.offset + size ∧ s'.buf = s.buf.drop size) := by
  refine ⟨?_, ?_, ?_⟩
  · intro s b s' h
    have := writeLoopW_preserves (s.buf.length + b.length)
      { s with buf := s.buf ++ b } s' (by simp) h
    have h1 := this.1
    simp only [List.length_append] at h1
    omega
  · intro s s' h
    simp only [closeW, Option.map_eq_some'] at h
    obtain ⟨⟨s1, evs⟩, hu, hfst⟩ := h
    obtain ⟨hs1, _⟩ := upload_buf_spec_true s s1 evs hu
    subst hfst
    rw [hs1]
    exact ⟨rfl, rfl⟩
  · intro s f s' evs h
    cases f with
    | true =>
      obtain ⟨hs', hevs⟩ := upload_buf_spec_true s s' evs h
      refine ⟨s.buf.length, le_refl _, ?_, ?_, ?_⟩
      · rw [hevs, List.take_length]
      · rw [hs']
      · rw [hs', List.drop_length]
    | false =>
      obtain ⟨hpos, hs', hevs⟩ := upload_buf_spec_false s s' evs h
      exact ⟨s.buf.length / s.chunk_size * s.chunk_size,
        Nat.div_mul_le_self _ _, hevs, by rw [hs'], by rw [hs']⟩

/-- Witness for `streaming_write_buffer_invariant`: a concrete writer with
chunk size 2 accepts bytes [97, 98, 99] (uploading one 2-byte chunk) and then
closes (flushing the final byte); the offset/buffer accounting matches. -/
theorem streaming_write_buffer_invariant_witness :
    writeW ⟨2, 0, []⟩ [97, 98, 99] = some ⟨2, 2, [99]⟩ ∧
    (⟨2, 2, [99]⟩ : WState).offset + (⟨2, 2, [99]⟩ : WState).buf.length =
      (⟨2, 0, []⟩ : WState).offset + (⟨2, 0, []⟩ : WState).buf.length +
        ([97, 98, 99] : List ℕ).length ∧
    closeW ⟨2, 2, [99]⟩ = some ⟨2, 3, []⟩ ∧
    (⟨2, 3, []⟩ : WState).offset =
      (⟨2, 2, [99]⟩ : WState).offset + (⟨2, 2, [99]⟩ : WState).buf.length := by
  have hw : writeW ⟨2, 0, []⟩ [97, 98, 99] = some ⟨2, 2, [99]⟩ := by
    rw [writeW]
    rw [writeLoopW_step ⟨2, 0, [] ++ [97, 98, 99]⟩ ⟨2, 2, [99]⟩
      [.truncate 2, .uploadChunk [97, 98] false, .advanceOffset 2]
      (by norm_num) (by rfl)]
    exact writeLoopW_stop _ (by norm_num)
  have hc : closeW (⟨2, 2, [99]⟩ : WState) = some ⟨2, 3, []⟩ := by rfl
  exact ⟨hw, streaming_write_buffer_invariant.1 _ _ _ hw, hc,
    (streaming_write_buffer_invariant.2.1 _ _ hc).1⟩

/-! ## Streaming reader (ops.py lines 1338-1492) -/

/-- The open body held by a `_StreamingReadFile` (`self._f`): either a live
ranged-GET response whose next unread byte sits at absolute position `pos` in
the object, or the empty `io.BytesIO()` installed by `_get_file` on a 416. -/
inductive BodyHandle where
  | ranged (pos : ℤ)
  | empty416
deriving Repr, DecidableEq

/-- State of a `_StreamingReadFile` (ops.py lines 1338-1348): recorded object
size, current logical offset, optional open body and the three statistics
counters.  The offset is an integer because `seek` performs unchecked
arithmetic. -/
structure RState where
  size : ℕ
  offset : ℤ
  body : Option BodyHandle
  requests : ℕ
  failures : ℕ
  bytes_read : ℕ
deriving Repr, DecidableEq

/-- Embeds `_StreamingReadFile.__init__` (ops.py lines 1339-1348). -/
def initReadState (size : ℕ) : RState :=
  { size := size, offset := 0, body := none,
    requests := 0, failures := 0, bytes_read := 0 }

/-- Result of `_get_file`: a body for the requested offset, or the
`_RangeError` marker paired with an empty body. -/
inductive GetFileResult where
  | body (pos : ℤ)
  | rangeError
deriving Repr, DecidableEq

/-- Embeds the status handling of `_GoogleStreamingReadFile._get_file`
(ops.py lines 1444-1464): `416` yields an empty body plus `_RangeError`;
`206` yields the response body positioned at the requested offset; any other
status raises (`assert resp.status == 206`). -/
def google_get_file (status : ℕ) (offset : ℤ) : Except String GetFileResult :=
  if status = 416 then .ok .rangeError
  else if status = 206 then .ok (.body offset)
  else .error "unexpected status"

/-- Embeds the status handling of `_AzureStreamingReadFile._get_file`
(ops.py lines 1474-1492), identical to the Google one. -/
def azure_get_file (status : ℕ) (offset : ℤ) : Except String GetFileResult :=
  if status = 416 then .ok .rangeError
  else if status = 206 then .ok (.body offset)
  else .error "unexpected status"

/-- The status a ranged GET `Range: bytes=off-` receives from an object that
currently holds `remoteLen` bytes: `206` when the start lies inside the
object, `416` otherwise (negative starts, which cannot arise from in-range
traces, are modelled as `416` as well). -/
def rangedStatus (remoteLen : ℕ) (off : ℤ) : ℕ :=
  if 0 ≤ off ∧ off < (remoteLen : ℤ) then 206 else 416

/-- Embeds the body-consuming part of one iteration of the retry loop of
`_StreamingReadFile.readinto` (ops.py lines 1375-1401) against an object that
currently holds `remoteLen` bytes: a successful `self._f.readinto(b)` of
`m > 0` bytes advances the body and `self._offset`/`self.bytes_read` by `m`;
a zero-byte read is treated as a dead connection (ops.py lines 1380-1384):
the body is closed and dropped and `failures` is bumped (the real loop then
retries; we model the single iteration). -/
def bodyRead (remoteLen : ℕ) (s : RState) (n : ℕ) : ℕ × RState :=
  match s.body with
  | none => (0, s)
  | some .empty416 =>
    (0, { s with body := none, failures := s.failures + 1 })
  | some (.ranged p) =>
    let m := (min (n : ℤ) ((remoteLen : ℤ) - p)).toNat
    if m = 0 then
      (0, { s with body := none, failures := s.failures + 1 })
    else
      (m, { s with body := some (.ranged (p + m)), offset := s.offset + m,
                   bytes_read := s.bytes_read + m })

/-- Embeds one iteration of `_StreamingReadFile.readinto`
(ops.py lines 1361-1401), parameterized by the subclass `_get_file` status
classifier `gf`: at `offset == size` return 0 immediately; with no open body,
issue the ranged GET — a `_RangeError` makes `readinto` return 0 with the
empty body installed (lines 1369-1372), otherwise the body is opened at the
current offset and `requests` is bumped (line 1373); then the body is read. -/
def readintoStep (gf : ℕ → ℤ → Except String GetFileResult) (remoteLen : ℕ)
    (s : RState) (n : ℕ) : Except String (ℕ × RState) :=
  if s.offset = (s.size : ℤ) then .ok (0, s)
  else
    match s.body with
    | some _ => .ok (bodyRead remoteLen s n)
    | none =>
      match gf (rangedStatus remoteLen s.offset) s.offset with
      | .error e => .error e
      | .ok .rangeError => .ok (0, { s with body := some .empty416 })
      | .ok (.body p) =>
        .ok (bodyRead remoteLen
          { s with body := some (.ranged p), requests := s.requests + 1 } n)

/-- The three `whence` values accepted by `seek`. -/
inductive Whence where
  | seek_set
  | seek_cur
  | seek_end
deriving Repr, DecidableEq

/-- The target offset computed by `_StreamingReadFile.seek`
(ops.py lines 1404-1411). -/
def seekTarget (s : RState) (off : ℤ) (w : Whence) : ℤ :=
  match w with
  | .seek_set => off
  | .seek_cur => s.offset + off
  | .seek_end => (s.size : ℤ) + off

/-- Embeds `_StreamingReadFile.seek` (ops.py lines 1403-1415): when the target
differs from the current offset it is installed as-is — no clamping to
`[0, size]` — and the open body is discarded. -/
def seekR (s : RState) (off : ℤ) (w : Whence) : RState :=
  if seekTarget s off w ≠ s.offset then
    { s with offset := seekTarget s off w, body := none }
  else s

/-- A public operation on a read stream. -/
inductive ROp where
  | read (n : ℕ)
  | seek (off : ℤ) (w : Whence)
deriving Repr, DecidableEq

/-- One public operation applied to the stream state; a `read` is one
iteration of `readinto` against a stable remote object of the stream's
recorded size.  The `.error` fallback is unreachable when `gf` is one of the
two classifiers, since `rangedStatus` only produces 206 and 416. -/
def stepR (gf : ℕ → ℤ → Except String GetFileResult) (s : RState) :
    ROp → RState
  | .read n =>
    match readintoStep gf s.size s n with
    | .ok r => r.2
    | .error _ => s
  | .seek off w => seekR s off w

/-- A sequence of operations applied from a starting state. -/
def runR (gf : ℕ → ℤ → Except String GetFileResult) (s : RState)
    (ops : List ROp) : RState :=
  ops.foldl (stepR gf) s

/-- The body-correspondence half of the claimed invariant: whenever a live
ranged body is held, its next byte is at the logical offset. -/
def BodyCorresponds (s : RState) : Prop :=
  ∀ p : ℤ, s.body = some (.ranged p) → p = s.offset

/-- Checks that every `seek` in an operation sequence computes a target inside
`[0, size]` of the state it is applied to. -/
def goodOps (gf : ℕ → ℤ → Except String GetFileResult) :
    RState → List ROp → Bool
  | _, [] => true
  | s, op :: rest =>
    (match op with
     | .read _ => true
     | .seek off w =>
       decide (0 ≤ seekTarget s off w) &&
       decide (seekTarget s off w ≤ (s.size : ℤ))) &&
    goodOps gf (stepR gf s op) rest

theorem azure_eq_google : azure_get_file = google_get_file := rfl

theorem bodyRead_ranged_inv (s : RState) (n : ℕ) (p : ℤ)
    (hbody : s.body = some (.ranged p)) (hp : p = s.offset) :
    BodyCorresponds (bodyRead s.size s n).2 ∧
    (bodyRead s.size s n).2.size = s.size ∧
    (0 ≤ s.offset → s.offset ≤ (s.size : ℤ) →
      0 ≤ (bodyRead s.size s n).2.offset ∧
      (bodyRead s.size s n).2.offset ≤ (s.size : ℤ)) := by
  simp only [bodyRead, hbody]
  by_cases hm : ((min (n : ℤ) ((s.size : ℤ) - p)).toNat = 0)
  · rw [if_pos hm]
    refine ⟨?_, rfl, ?_⟩
    · intro q hq
      simp at hq
    · intro h0 h1
      exact ⟨h0, h1⟩
  · rw [if_neg hm]
    have hmin : 0 < min (n : ℤ) ((s.size : ℤ) - p) := by omega
    have hle : (((min (n : ℤ) ((s.size : ℤ) - p)).toNat : ℤ)) ≤
        (s.size : ℤ) - p := by
      rcases le_total (n : ℤ) ((s.size : ℤ) - p) with h | h
      · rw [min_eq_left h] at hmin ⊢
        omega
      · rw [min_eq_right h] at hmin ⊢
        omega
    refine ⟨?_, rfl, ?_⟩
    · intro q hq
      simp only [Option.some.injEq, BodyHandle.ranged.injEq] at hq
      subst hq
      simp [hp]
    · intro h0 h1
      constructor
      · simp only
        omega
      · simp only
        omega

/-- The per-seek range condition used by the amended invariant. -/
def seekInRange (s : RState) : ROp → Prop
  | .read _ => True
  | .seek off w =>
    0 ≤ seekTarget s off w ∧ seekTarget s off w ≤ (s.size : ℤ)

theorem stepR_inv (s : RState) (op : ROp) (hb : BodyCorresponds s) :
    BodyCorresponds (stepR google_get_file s op) ∧
    (stepR google_get_file s op).size = s.size ∧
    (0 ≤ s.offset → s.offset ≤ (s.size : ℤ) → seekInRange s op →
      0 ≤ (stepR google_get_file s op).offset ∧
      (stepR google_get_file s op).offset ≤ (s.size : ℤ)) := by
  cases op with
  | seek off w =>
    simp only [stepR, seekR]
    by_cases h : seekTarget s off w ≠ s.offset
    · rw [if_pos h]
      refine ⟨?_, rfl, ?_⟩
      · intro q hq
        simp at hq
      · intro _ _ hgood
        exact hgood
    · rw [if_neg h]
      exact ⟨hb, rfl, fun h0 h1 _ => ⟨h0, h1⟩⟩
  | read n =>
    simp only [stepR, readintoStep]
    by_cases hoff : s.offset = (s.size : ℤ)
    · rw [if_pos hoff]
      exact ⟨hb, rfl, fun h0 h1 _ => ⟨h0, h1⟩⟩
    · rw [if_neg hoff]
      cases hbody : s.body with
      | some hd =>
        cases hd with
        | empty416 =>
          simp only [bodyRead, hbody]
          refine ⟨?_, by simp, fun h0 h1 _ => ⟨h0, h1⟩⟩
          intro q hq
          simp at hq
        | ranged p =>
          have hp : p = s.offset := hb p hbody
          have := bodyRead_ranged_inv s n p hbody hp
          exact ⟨this.1, this.2.1, fun h0 h1 _ => this.2.2 h0 h1⟩
      | none =>
        simp only
        by_cases hin : 0 ≤ s.offset ∧ s.offset < (s.size : ℤ)
        · have hst : rangedStatus s.size s.offset = 206 := by
            simp [rangedStatus, hin]
          rw [hst]
          have hg : google_get_file 206 s.offset = .ok (.body s.offset) := by
            simp [google_get_file]
          rw [hg]
          simp only
          set s1 : RState :=
            { s with body := some (.ranged s.offset),
                     requests := s.requests + 1 } with hs1
          have hbody1 : s1.body = some (.ranged s.offset) := rfl
          have hp1 : s.offset = s1.offset := rfl
          have h1 := bodyRead_ranged_inv s1 n s.offset hbody1 hp1
          have hsz : s1.size = s.size := rfl
          have hof : s1.offset = s.offset := rfl
          rw [hsz, hof] at h1
          exact ⟨h1.1, h1.2.1, fun ha hc _ => h1.2.2 ha hc⟩
        · have hst : rangedStatus s.size s.offset = 416 := by
            simp only [rangedStatus]
            rw [if_neg hin]
          rw [hst]
          have hg : google_get_file 416 s.offset = .ok .rangeError := by
            simp [google_get_file]
          rw [hg]
          simp only
          refine ⟨?_, by simp, ?_⟩
          · intro q hq
            simp at hq
          · intro h0 h1 _
            exact absurd ⟨h0, by omega⟩ hin

theorem runR_cons (gf : ℕ → ℤ → Except String GetFileResult) (s : RState)
    (op : ROp) (rest : List ROp) :
    runR gf s (op :: rest) = runR gf (stepR gf s op) rest := rfl

theorem runR_inv :
    ∀ (ops : List ROp) (s : RState), BodyCorresponds s →
      BodyCorresponds (runR google_get_file s ops) ∧
      (runR google_get_file s ops).size = s.size ∧
      (0 ≤ s.offset → s.offset ≤ (s.size : ℤ) →
        goodOps google_get_file s ops = true →
        0 ≤ (runR google_get_file s ops).offset ∧
        (runR google_get_file s ops).offset ≤ (s.size : ℤ)) := by
  intro ops
  induction ops with
  | nil =>
    intro s hb
    exact ⟨hb, rfl, fun h0 h1 _ => ⟨h0, h1⟩⟩
  | cons op rest ih =>
    intro s hb
    rw [runR_cons]
    have hstep := stepR_inv s op hb
    have hrec := ih (stepR google_get_file s op) hstep.1
    have hsz := hstep.2.1
    refine ⟨hrec.1, by rw [hrec.2.1, hsz], ?_⟩
    intro h0 h1 hgood
    simp only [goodOps, Bool.and_eq_true] at hgood
    have hopgood : seekInRange s op := by
      cases op with
      | read n => exact trivial
      | seek off w =>
        have h := hgood.1
        simp only [Bool.and_eq_true, decide_eq_true_eq] at h
        exact h
    have hb2 := hstep.2.2 h0 h1 hopgood
    have hszZ : (((stepR google_get_file s op).size : ℤ)) = (s.size : ℤ) := by
      exact_mod_cast congrArg (fun k : ℕ => (k : ℤ)) hsz
    have hres := hrec.2.2 hb2.1 (by rw [hszZ]; exact hb2.2) hgood.2
    exact ⟨hres.1, by rw [← hszZ]; exact hres.2⟩

/-- C4 counterexample: `seek` does not clamp.  On a fresh stream of size 10,
`seek(-1, SEEK_SET)` leaves the logical offset at -1 (violating
`0 ≤ offset`) and `seek(11, SEEK_SET)` leaves it at 11 (violating
`offset ≤ size`), refuting the claim for arbitrary seek arguments. -/
theorem streaming_read_seek_unclamped :
    (runR google_get_file (initReadState 10) [.seek (-1) .seek_set]).offset
      = -1 ∧
    ¬ (0 ≤ (runR google_get_file (initReadState 10)
        [.seek (-1) .seek_set]).offset) ∧
    (runR google_get_file (initReadState 10) [.seek 11 .seek_set]).offset
      = 11 ∧
    ¬ ((runR google_get_file (initReadState 10)
        [.seek 11 .seek_set]).offset ≤ (10 : ℤ)) := by
  refine ⟨by rfl, by decide, by rfl, by decide⟩

/-- C4 (amended): on every streaming read file, after any sequence of read
and seek operations, the open-body correspondence holds unconditionally
(whenever a live ranged body is held its next byte is at `offset`), and
`0 ≤ offset ≤ size` holds provided every seek's computed target lies in
`[0, size]` — the code applies seek targets without clamping, so arbitrary
seek arguments can push the offset outside that interval. -/
theorem streaming_read_invariant (gf : ℕ → ℤ → Except String GetFileResult)
    (hg : gf = google_get_file ∨ gf = azure_get_file)
    (size : ℕ) (ops : List ROp) :
    BodyCorresponds (runR gf (initReadState size) ops) ∧
    (goodOps gf (initReadState size) ops = true →
      0 ≤ (runR gf (initReadState size) ops).offset ∧
      (runR gf (initReadState size) ops).offset ≤ (size : ℤ)) := by
  have hginit : BodyCorresponds (initReadState size) := by
    intro q hq
    simp [initReadState] at hq
  have hmain : BodyCorresponds (runR google_get_file (initReadState size) ops) ∧
      (goodOps google_get_file (initReadState size) ops = true →
        0 ≤ (runR google_get_file (initReadState size) ops).offset ∧
        (runR google_get_file (initReadState size) ops).offset ≤ (size : ℤ)) := by
    have h := runR_inv ops (initReadState size) hginit
    exact ⟨h.1, fun hgood =>
      h.2.2 (by simp [initReadState]) (by simp [initReadState]) hgood⟩
  rcases hg with rfl | rfl
  · exact hmain
  · rw [azure_eq_google]
    exact hmain

/-- Witness for `streaming_read_invariant`: a concrete in-range trace on a
10-byte object — seek to 4, read 3, seek back 2, read to the end — keeps the
offset inside [0, 10]. -/
theorem streaming_read_invariant_witness :
    goodOps google_get_file (initReadState 10)
      [.seek 4 .seek_set, .read 3, .seek (-2) .seek_cur, .read 100] = true ∧
    0 ≤ (runR google_get_file (initReadState 10)
      [.seek 4 .seek_set, .read 3, .seek (-2) .seek_cur, .read 100]).offset ∧
    (runR google_get_file (initReadState 10)
      [.seek 4 .seek_set, .read 3, .seek (-2) .seek_cur, .read 100]).offset ≤
      (10 : ℤ) := by
  refine ⟨by decide, ?_, ?_⟩
  · exact ((streaming_read_invariant google_get_file (Or.inl rfl) 10
      [.seek 4 .seek_set, .read 3, .seek (-2) .seek_cur, .read 100]).2
      (by decide)).1
  · exact ((streaming_read_invariant google_get_file (Or.inl rfl) 10
      [.seek 4 .seek_set, .read 3, .seek (-2) .seek_cur, .read 100]).2
      (by decide)).2

/-- C6: a ranged GET that returns 416 is translated by both `_get_file`
implementations into the `_RangeError` marker (never an error), and
`readinto` turns it into an immediate 0-byte EOF with no exception: the
result is `.ok (0, _)` with the empty body installed, exactly as the source
does on lines 1369-1372. -/
theorem ranged_get_416_is_eof :
    (∀ off : ℤ, google_get_file 416 off = .ok .rangeError ∧
       azure_get_file 416 off = .ok .rangeError) ∧
    (∀ (gf : ℕ → ℤ → Except String GetFileResult) (remoteLen : ℕ)
       (s : RState) (n : ℕ),
       (gf = google_get_file ∨ gf = azure_get_file) →
       s.body = none → s.offset ≠ (s.size : ℤ) →
       rangedStatus remoteLen s.offset = 416 →
       readintoStep gf remoteLen s n =
         .ok (0, { s with body := some .empty416 })) := by
  constructor
  · intro off
    exact ⟨rfl, rfl⟩
  · intro gf remoteLen s n hg hbody hoff hst
    have hcall : gf (rangedStatus remoteLen s.offset) s.offset =
        .ok .rangeError := by
      rw [hst]
      rcases hg with rfl | rfl <;> rfl
    simp only [readintoStep, if_neg hoff, hbody, hcall]

/-- Witness for `ranged_get_416_is_eof`: a reader opened on a 10-byte object
that has been truncated to 3 bytes, sitting at offset 5 with no open body:
the ranged GET gets a 416 and the read returns 0 without error. -/
theorem ranged_get_416_is_eof_witness :
    readintoStep google_get_file 3
      { size := 10, offset := 5, body := none, requests := 0,
        failures := 0, bytes_read := 0 } 4 =
      .ok (0, { size := 10, offset := 5, body := some .empty416,
                requests := 0, failures := 0, bytes_read := 0 }) := by
  exact ranged_get_416_is_eof.2 google_get_file 3
    { size := 10, offset := 5, body := none, requests := 0,
      failures := 0, bytes_read := 0 } 4 (Or.inl rfl) rfl (by decide) (by decide)

/-! ## Azure append-blob chunk upload (ops.py lines 56, 1597-1655) -/

/-- Embeds `AZURE_MAX_CHUNK_SIZE = 4 * 2 ** 20` (ops.py line 56). -/
def AZURE_MAX_CHUNK_SIZE : ℕ := 4 * 2 ^ 20

/-- The requests issued by `_AzureStreamingWriteFile._upload_chunk`: an
append-block PUT carrying `x-ms-blob-condition-appendpos: appendpos` for a
sub-block of `size` bytes, and the md5 property-update PUT. -/
inductive AzureEvent where
  | appendBlockPut (appendpos : ℕ) (size : ℕ)
  | propertiesPut
deriving Repr, DecidableEq

/-- Embeds the sub-block loop of `_AzureStreamingWriteFile._upload_chunk`
(ops.py lines 1622-1655).  `offset` is `self._offset`, `start` the loop
variable, `chunkLen` the chunk length; `appendSt` and `propSt` list the
statuses returned to the append-block PUTs and the property-update PUTs, one
per iteration.  Line 1638 asserts the append status is 201 *or* 412 and the
loop continues identically in both cases; line 1653 asserts the property
update returns 200.  Errors are the raised `AssertionError`s (or exhaustion
of the response environment). -/
def azureChunkLoop (offset : ℕ) (start : ℕ) (chunkLen : ℕ) :
    List ℕ → List ℕ → Except String (List AzureEvent)
  | appendSt, propSt =>
    if start < chunkLen then
      match appendSt, propSt with
      | [], _ => .error "no response"
      | _ :: _, [] => .error "no response"
      | a :: arest, p :: prest =>
        let size := min AZURE_MAX_CHUNK_SIZE (chunkLen - start)
        if a = 201 ∨ a = 412 then
          if p = 200 then
            match azureChunkLoop offset (start + AZURE_MAX_CHUNK_SIZE) chunkLen
                arest prest with
            | .ok evs =>
              .ok (.appendBlockPut (offset + start) size :: .propertiesPut :: evs)
            | .error e => .error e
          else .error "unexpected status"
        else .error "unexpected status"
    else .ok []

/-- Embeds `_AzureStreamingWriteFile._upload_chunk` (ops.py lines 1618-1655):
an empty chunk returns immediately; otherwise the sub-block loop runs from
`start = 0`. -/
def azure_upload_chunk (offset chunkLen : ℕ) (appendSt propSt : List ℕ) :
    Except String (List AzureEvent) :=
  if chunkLen = 0 then .ok []
  else azureChunkLoop offset 0 chunkLen appendSt propSt

/-- C1 (code bug): when the append-block PUT returns 412 (the
append-position pre-condition failed because a concurrent writer advanced the
blob), `_upload_chunk` accepts the status (ops.py line 1638 asserts
`resp.status in (201, 412)`), still performs the md5 property update, and
returns successfully — its behaviour on a 412 is byte-for-byte identical to
its behaviour on a 201.  The stream is never invalidated and
`ConcurrentWriteFailure` is never raised (ops.py does not even define it,
although the repository's own test `test_concurrent_write_as` expects it). -/
theorem azure_upload_chunk_swallows_412 :
    azure_upload_chunk 0 5 [412] [200] =
      .ok [.appendBlockPut 0 5, .propertiesPut] ∧
    azure_upload_chunk 0 5 [412] [200] = azure_upload_chunk 0 5 [201] [200] ∧
    azure_upload_chunk 0 (AZURE_MAX_CHUNK_SIZE + 1) [412, 201] [200, 200] =
      .ok [.appendBlockPut 0 AZURE_MAX_CHUNK_SIZE, .propertiesPut,
           .appendBlockPut AZURE_MAX_CHUNK_SIZE 1, .propertiesPut] := by
  refine ⟨by rfl, by rfl, by rfl⟩

/-! ## BlobFile open dispatch (ops.py lines 382-393, 1678-1719) -/

/-- Python `s.startswith(t)`, computed on the character data (the core
`String` functions do not reduce in the kernel). -/
def strStartsWith (s t : String) : Bool :=
  s.data.take t.data.length == t.data

/-- Python `s.endswith(t)`, computed on the character data. -/
def strEndsWith (s t : String) : Bool :=
  s.data.drop (s.data.length - t.data.length) == t.data

/-- Embeds `_is_google_path` (ops.py lines 386-388); the `urlparse` scheme
test is modelled as a URL-shape test. -/
def _is_google_path (path : String) : Bool :=
  strStartsWith path "gs://"

/-- Embeds `_is_azure_path` (ops.py lines 391-393). -/
def _is_azure_path (path : String) : Bool :=
  strStartsWith path "as://"

/-- Embeds `_is_local_path` (ops.py lines 382-383). -/
def _is_local_path (path : String) : Bool :=
  !(_is_google_path path) && !(_is_azure_path path)

/-- The four modes `BlobFile` accepts. -/
inductive BFMode where
  | r
  | rb
  | w
  | wb
deriving Repr, DecidableEq

/-- The first backend action `BlobFile` takes for a path/mode pair: the local
`io.FileIO` open, the Google resumable-session POST or metadata GET, or the
Azure append-blob-create PUT or HEAD. -/
inductive BFOpen where
  | localOpen
  | googleWriteSession
  | googleReadOpen
  | azureWriteCreate
  | azureReadOpen
deriving Repr, DecidableEq

/-- The failures of `BlobFile` before any backend action. -/
inductive BFError where
  | slashPath
  | unrecognizedPath
deriving Repr, DecidableEq

/-- Embeds `BlobFile` (ops.py lines 1678-1712) up to its first backend
action: `assert not path.endswith("/")` (line 1686) runs first, before the
scheme dispatch, for every mode; then the path dispatches to the local,
Google or Azure stream constructor according to the mode. -/
def BlobFile (path : String) (mode : BFMode) : Except BFError BFOpen :=
  if strEndsWith path "/" then .error .slashPath
  else if _is_local_path path then .ok .localOpen
  else if _is_google_path path then
    match mode with
    | .w | .wb => .ok .googleWriteSession
    | .r | .rb => .ok .googleReadOpen
  else if _is_azure_path path then
    match mode with
    | .w | .wb => .ok .azureWriteCreate
    | .r | .rb => .ok .azureReadOpen
  else .error .unrecognizedPath

/-- C10: `BlobFile` fails on every slash-terminated path for every mode —
including the read modes — before any backend request: the result is the
slash-path assertion error and no open action is produced. -/
theorem blobfile_rejects_trailing_slash (path : String) (mode : BFMode)
    (h : strEndsWith path "/" = true) :
    BlobFile path mode = .error .slashPath := by
  simp [BlobFile, h]

/-- Witness for `blobfile_rejects_trailing_slash`: a Google directory-shaped
path opened in read-binary mode fails with the slash-path error. -/
theorem blobfile_rejects_trailing_slash_witness :
    BlobFile "gs://bucket/dir/" BFMode.rb = .error .slashPath :=
  blobfile_rejects_trailing_slash "gs://bucket/dir/" BFMode.rb (by decide)

/-! ## Directory emulation: rmdir over a flat namespace
(ops.py lines 597-644, 729-816, 966-1028) -/

/-- Embeds `_google_isfile` / `_azure_isfile` (ops.py lines 597-624) against
a container whose blob names are `store`: an empty blob name is never a file;
otherwise the metadata request returns 200 exactly when the name is stored. -/
def isfileS (store : List String) (blob : String) : Bool :=
  if blob = "" then false else store.contains blob

/-- Embeds the nonempty-key case of `isdir` (ops.py lines 729-788) for a
slash-terminated blob name: the delimited listing with prefix `blob` and page
size 1 yields at least one object or common prefix exactly when some stored
blob extends `blob`. -/
def isdirS (store : List String) (blob : String) : Bool :=
  store.any (fun b => strStartsWith b blob)

/-- Embeds `exists` (ops.py lines 627-644) for a slash-terminated remote
path: the object check, then the directory check. -/
def existsS (store : List String) (blob : String) : Bool :=
  isfileS store blob || isdirS store blob

/-- Embeds the question the `listdir` iterator answers inside `rmdir`
(ops.py lines 791-837, 994-1005): whether the directory holds an entry other
than its own marker (`_list_suffixes` with `exclude_prefix=True` skips the
item named exactly `blob`). -/
def hasChildS (store : List String) (blob : String) : Bool :=
  store.any (fun b => strStartsWith b blob && !(b == blob))

/-- The key portion of the slash-normalized path (ops.py lines 982-983): the
slash is appended to the URL, so a bucket-root path keeps an empty key while
any other key gains a trailing slash if missing. -/
def dirBlob (key : String) : String :=
  if key = "" then "" else if strEndsWith key "/" then key else key ++ "/"

/-- The observable outcomes of `rmdir` on a remote path. -/
inductive RmdirResult where
  | ok (store : List String)
  | bucketError
  | notEmpty
  | notADir
  | assertFail
deriving Repr, DecidableEq

/-- Embeds `rmdir` (ops.py lines 966-1028) for a remote path with key `key`
against a container holding `store`: refuse the bucket root (line 992); a
missing directory is a silent success (the `FileNotFoundError` from `listdir`
is caught, lines 995-999); a directory with an entry raises `OSError`
(`.notEmpty`, line 1005); otherwise the marker object is deleted, the backend
asserting the DELETE found it (`.assertFail` models a 404 failing the status
assertion).  `.notADir` models a `NotADirectoryError` escaping `listdir`. -/
def rmdirS (store : List String) (key : String) : RmdirResult :=
  let blob := dirBlob key
  if blob = "" then .bucketError
  else if !(existsS store blob) then .ok store
  else if !(isdirS store blob) then .notADir
  else if hasChildS store blob then .notEmpty
  else if store.contains blob then .ok (store.erase blob)
  else .assertFail

theorem strStartsWith_self (s : String) : strStartsWith s s = true := by
  simp [strStartsWith]

theorem dirBlob_ne_empty (key : String) (h : key ≠ "") : dirBlob key ≠ "" := by
  simp only [dirBlob, if_neg h]
  by_cases he : strEndsWith key "/" = true
  · rw [if_pos he]
    exact h
  · rw [if_neg he]
    intro hc
    have hd : (key ++ "/").data = "".data := congrArg String.data hc
    simp [String.data_append] at hd

/-- C8: on a remote store, `rmdir` on an empty directory (its marker present
and no other blob under the prefix) succeeds and deletes the marker, and a
second call silently succeeds without change (the directory no longer
exists); on a non-empty directory (some other blob under the prefix) it
always returns the directory-not-empty `OSError`; and on a bucket/container
root it always fails. -/
theorem rmdir_semantics :
    (∀ (store : List String) (key : String), store.Nodup → key ≠ "" →
      dirBlob key ∈ store →
      (∀ b ∈ store, strStartsWith b (dirBlob key) = true → b = dirBlob key) →
      rmdirS store key = .ok (store.erase (dirBlob key)) ∧
      rmdirS (store.erase (dirBlob key)) key =
        .ok (store.erase (dirBlob key))) ∧
    (∀ (store : List String) (key : String) (b : String), key ≠ "" →
      b ∈ store → strStartsWith b (dirBlob key) = true → b ≠ dirBlob key →
      rmdirS store key = .notEmpty) ∧
    (∀ store : List String, rmdirS store "" = .bucketError) := by
  refine ⟨?_, ?_, ?_⟩
  · intro store key hnd hk hmem honly
    have hne := dirBlob_ne_empty key hk
    have hcont : store.contains (dirBlob key) = true :=
      List.elem_eq_true_of_mem hmem
    have hisdir : isdirS store (dirBlob key) = true := by
      simp only [isdirS, List.any_eq_true]
      exact ⟨dirBlob key, hmem, strStartsWith_self _⟩
    have hexists : existsS store (dirBlob key) = true := by
      simp only [existsS, Bool.or_eq_true]
      exact Or.inr hisdir
    have hnochild : hasChildS store (dirBlob key) = false := by
      simp only [hasChildS, List.any_eq_false]
      intro b hb
      simp only [Bool.and_eq_true, Bool.not_eq_true', beq_eq_false_iff_ne,
        ne_eq, not_and]
      intro hpre
      simp [honly b hb hpre]
    have h1 : rmdirS store key = .ok (store.erase (dirBlob key)) := by
      simp only [rmdirS, if_neg hne, hexists, Bool.not_true,
        Bool.false_eq_true, if_false, hisdir, hnochild, hcont, if_true]
    refine ⟨h1, ?_⟩
    have hnotmem : dirBlob key ∉ store.erase (dirBlob key) :=
      hnd.not_mem_erase
    have hnoex : existsS (store.erase (dirBlob key)) (dirBlob key) = false := by
      simp only [existsS, Bool.or_eq_false_iff]
      constructor
      · simp only [isfileS, if_neg hne]
        simpa using hnotmem
      · simp only [isdirS, List.any_eq_false]
        intro b hb
        have hbs : b ∈ store := List.mem_of_mem_erase hb
        simp only [Bool.not_eq_true]
        by_cases hpre : strStartsWith b (dirBlob key) = true
        · exact absurd ((honly b hbs hpre) ▸ hb) hnotmem
        · simpa using hpre
    simp only [rmdirS, if_neg hne, hnoex, Bool.not_false, if_true]
  · intro store key b hk hb hpre hbne
    have hne := dirBlob_ne_empty key hk
    have hisdir : isdirS store (dirBlob key) = true := by
      simp only [isdirS, List.any_eq_true]
      exact ⟨b, hb, hpre⟩
    have hexists : existsS store (dirBlob key) = true := by
      simp only [existsS, Bool.or_eq_true]
      exact Or.inr hisdir
    have hchild : hasChildS store (dirBlob key) = true := by
      simp only [hasChildS, List.any_eq_true]
      refine ⟨b, hb, ?_⟩
      simp [hpre, hbne]
    simp only [rmdirS, if_neg hne, hexists, Bool.not_true, Bool.false_eq_true,
      if_false, hisdir, hchild, if_true]
  · intro store
    simp [rmdirS, dirBlob]

/-- Witness for `rmdir_semantics`: a container holding the marker "a/" and an
unrelated blob "x".  Deleting directory "a" removes the marker; deleting it
again silently succeeds; with a child "a/b" present it reports not-empty; the
bucket root is refused. -/
theorem rmdir_semantics_witness :
    rmdirS ["a/", "x"] "a" = .ok (["a/", "x"].erase (dirBlob "a")) ∧
    rmdirS (["a/", "x"].erase (dirBlob "a")) "a" =
      .ok (["a/", "x"].erase (dirBlob "a")) ∧
    ["a/", "x"].erase (dirBlob "a") = ["x"] ∧
    rmdirS ["a/", "a/b"] "a" = .notEmpty ∧
    rmdirS ["a/", "x"] "" = .bucketError := by
  have h1 := rmdir_semantics.1 ["a/", "x"] "a" (by decide) (by decide)
    (by decide) (by decide)
  have h2 := rmdir_semantics.2.1 ["a/", "a/b"] "a" "a/b" (by decide)
    (by decide) (by decide) (by decide)
  exact ⟨h1.1, h1.2, by decide, h2, rmdir_semantics.2.2 ["a/", "x"]⟩

/-! ## Copy coordinator (ops.py lines 396-506) -/

/-- The externally visible work `copy` performs, in order: the destination
existence check (ops.py line 411), a Google rewrite request (lines 420-443),
the Azure copy-blob request and its status polls (lines 449-491), or the
streamed proxy copy through a reader/writer pair (lines 496-506). -/
inductive CopyEffect where
  | existsCheck (dst : String)
  | googleRewrite
  | azureCopyStart
  | azurePoll
  | streamTransfer
deriving Repr, DecidableEq

/-- The errors `copy` can raise before or during the transfer. -/
inductive CopyError where
  | fileExists
  | srcNotFound
deriving Repr, DecidableEq

/-- Embeds `copy` (ops.py lines 396-506).  `exs` is the `exists` oracle the
code consults for the destination, `content` the source lookup (`none` means
the backend reports 404).  Returns the content that ends up at the
destination (`none` when an error aborts the copy) together with the ordered
list of effects performed.  The structure mirrors the source exactly: with
`overwrite=False` the destination existence check runs first and raises
`FileExistsError` before any other work; then the three copy strategies are
dispatched on the path schemes. -/
def copyS (exs : String → Bool) (content : String → Option (List ℕ))
    (src dst : String) (overwrite : Bool) :
    Except CopyError (List ℕ) × List CopyEffect :=
  if !overwrite && exs dst then
    (.error .fileExists, [.existsCheck dst])
  else
    let pre : List CopyEffect := if overwrite then [] else [.existsCheck dst]
    if _is_google_path src && _is_google_path dst then
      match content src with
      | none => (.error .srcNotFound, pre ++ [.googleRewrite])
      | some c => (.ok c, pre ++ [.googleRewrite])
    else if _is_azure_path src && _is_azure_path dst then
      match content src with
      | none => (.error .srcNotFound, pre ++ [.azureCopyStart])
      | some c => (.ok c, pre ++ [.azureCopyStart, .azurePoll])
    else
      match content src with
      | none => (.error .srcNotFound, pre ++ [.streamTransfer])
      | some c => (.ok c, pre ++ [.streamTransfer])

/-- C9: for every pair of paths, `copy` with `overwrite=False` raises
`FileExistsError` whenever the destination exists, and the existence check is
the very first and only effect performed: no rewrite call, server-side copy
start, or byte transfer is begun, so the destination is left unchanged.
Moreover, for any inputs, whenever the existence check appears it is the
first effect. -/
theorem copy_checks_destination_first
    (exs : String → Bool) (content : String → Option (List ℕ))
    (src dst : String) (h : exs dst = true) :
    copyS exs content src dst false =
      (.error .fileExists, [.existsCheck dst]) ∧
    (∀ (ow : Bool) (src' dst' : String),
      ((copyS exs content src' dst' ow).2.head? = some (.existsCheck dst')) ∨
      ow = true) := by
  constructor
  · simp [copyS, h]
  · intro ow src' dst'
    cases ow with
    | true => exact Or.inr rfl
    | false =>
      left
      simp only [copyS, Bool.not_false, Bool.true_and]
      by_cases he : exs dst' = true
      · rw [if_pos he]
        rfl
      · rw [if_neg he]
        simp only [Bool.false_eq_true, if_false]
        by_cases hg : (_is_google_path src' && _is_google_path dst') = true
        · rw [if_pos hg]
          cases content src' <;> simp
        · rw [if_neg hg]
          by_cases ha : (_is_azure_path src' && _is_azure_path dst') = true
          · rw [if_pos ha]
            cases content src' <;> simp
          · rw [if_neg ha]
            cases content src' <;> simp

/-- Witness for `copy_checks_destination_first`: copying onto an existing
Google destination with `overwrite=False` fails fast with only the existence
check performed. -/
theorem copy_checks_destination_first_witness :
    copyS (fun p => p == "gs://b/y") (fun _ => some [1, 2])
      "gs://b/x" "gs://b/y" false =
      (.error .fileExists, [.existsCheck "gs://b/y"]) := by
  exact (copy_checks_destination_first (fun p => p == "gs://b/y")
    (fun _ => some [1, 2]) "gs://b/x" "gs://b/y" (by decide)).1
